import Mathlib

/-!
Verification of the MediSearch dashboard (`app.py`).

The application is a Streamlit front end over a MySQL database with three
tables (`medicines`, `users`, `purchase_history`).  This file gives a shallow
embedding of its query functions and proves the frozen claims about them.

Modelling conventions:
* A table is a `List` of rows; a pandas DataFrame of rows is likewise a list.
* MySQL 8.0's default collation is accent/case-insensitive; string comparison
  done by the SQL engine (`LIKE`, `IN`, `=` on text columns) is modelled as
  comparison after ASCII lower-casing.  Python's `str.lower` is modelled the
  same way (the catalog data is ASCII).
* `LIKE` patterns are interpreted with full wildcard semantics: `%` matches
  any sequence of characters, `_` matches exactly one character.
* SQL leaves the relative order of `ORDER BY` ties unspecified; the embedding
  refines this (and pandas `sort_values`) deterministically with `mergeSort`
  on the `ORDER BY` key.  `GROUP BY` output order is refined to first
  occurrence of each key in table order.
* `DECIMAL` columns (`rating`, `price`) are modelled as `ℚ`, dates as `ℕ`
  (e.g. days since an epoch), ids and quantities as `ℕ`.
* The pure query functions (`search_medicines_db`, `load_medicines_from_db`,
  `get_user_history`, `generate_recommendations_db`) model the result a live
  connection returns when the SQL executes successfully; the
  connection-management and error path of `execute_query` is modelled
  separately as `execute_query` over an environment of outcomes.
-/

set_option synthInstance.maxSize 512

/-- The value of `Char.ofNat` on a code point below the surrogate range. -/
theorem toNat_ofNat_valid (n : Nat) (h : n < 55296) : (Char.ofNat n).toNat = n := by
  have hv : Nat.isValidChar n := Or.inl h
  simp only [Char.ofNat, dif_pos hv, Char.ofNatAux, Char.toNat, UInt32.toNat,
    BitVec.toNat_ofNatLt]

/-- ASCII lower-casing of one character, as done both by Python's
`str.lower` on ASCII data and by the case-insensitive MySQL collation. -/
def lowerChar (c : Char) : Char :=
  if 65 ≤ c.toNat ∧ c.toNat ≤ 90 then Char.ofNat (c.toNat + 32) else c

/-- ASCII lower-casing of a character list. -/
def lowerStr (s : List Char) : List Char := s.map lowerChar

/-- Lower-casing never produces an upper-case ASCII letter. -/
theorem lowerChar_not_upper (c : Char) :
    ¬ (65 ≤ (lowerChar c).toNat ∧ (lowerChar c).toNat ≤ 90) := by
  unfold lowerChar
  by_cases h : 65 ≤ c.toNat ∧ c.toNat ≤ 90
  · rw [if_pos h]
    have : (Char.ofNat (c.toNat + 32)).toNat = c.toNat + 32 :=
      toNat_ofNat_valid _ (by omega)
    omega
  · rw [if_neg h]; exact h

/-- Lower-casing a character is idempotent. -/
theorem lowerChar_idem (c : Char) : lowerChar (lowerChar c) = lowerChar c := by
  have h := lowerChar_not_upper c
  conv_lhs => rw [lowerChar]
  rw [if_neg h]

/-- Lower-casing a string is idempotent. -/
theorem lowerStr_idem (s : List Char) : lowerStr (lowerStr s) = lowerStr s := by
  simp [lowerStr, Function.comp, lowerChar_idem]

/-- All suffixes of a character list, longest first, ending with `[]`. -/
def sufList : List Char → List (List Char)
  | [] => [[]]
  | c :: t => (c :: t) :: sufList t

/-- SQL `LIKE` pattern matching: `%` matches any sequence, `_` any single
character, anything else itself.  A `%` consumes an arbitrary suffix. -/
def likeMatch : List Char → List Char → Bool
  | [], s => s.isEmpty
  | p :: ps, s =>
    if p == '%' then (sufList s).any (fun t => likeMatch ps t)
    else
      match s with
      | [] => false
      | c :: t => (p == '_' || p == c) && likeMatch ps t

theorem likeMatch_wild_nil (ps : List Char) :
    likeMatch ('%' :: ps) [] = likeMatch ps [] := by
  simp [likeMatch, sufList]

theorem likeMatch_wild_cons (ps : List Char) (c : Char) (t : List Char) :
    likeMatch ('%' :: ps) (c :: t) =
      (likeMatch ps (c :: t) || likeMatch ('%' :: ps) t) := by
  simp [likeMatch, sufList]

/-- A leading `%` wildcard may always absorb nothing. -/
theorem likeMatch_intro_wild (ps s : List Char) (h : likeMatch ps s = true) :
    likeMatch ('%' :: ps) s = true := by
  cases s with
  | nil => rw [likeMatch_wild_nil]; exact h
  | cons c t => rw [likeMatch_wild_cons]; simp [h]

/-- The pattern consisting of a single `%` matches everything. -/
theorem likeMatch_wild_single (ys : List Char) : likeMatch ['%'] ys = true := by
  induction ys with
  | nil => simp [likeMatch, sufList]
  | cons c t ih => rw [likeMatch_wild_cons]; simp [ih]

/-- A pattern `xs%` matches any extension of `xs`. -/
theorem likeMatch_self_append (xs ys : List Char) :
    likeMatch (xs ++ ['%']) (xs ++ ys) = true := by
  induction xs generalizing ys with
  | nil => simpa using likeMatch_wild_single ys
  | cons x xs ih =>
    by_cases hx : x = '%'
    · subst hx
      rw [List.cons_append, List.cons_append, likeMatch_wild_cons]
      have h := likeMatch_intro_wild _ _ (ih ys)
      simp [h]
    · rw [List.cons_append, List.cons_append]
      simp [likeMatch, hx, ih ys]

/-- The pattern `%q%` matches `q` itself. -/
theorem likeMatch_query_self (q : List Char) :
    likeMatch ('%' :: (q ++ ['%'])) q = true := by
  have h := likeMatch_self_append q []
  rw [List.append_nil] at h
  exact likeMatch_intro_wild _ _ h

/-- Literal test that `q` begins the string. -/
def leadsWith : List Char → List Char → Bool
  | [], _ => true
  | _ :: _, [] => false
  | a :: as, b :: bs => a == b && leadsWith as bs

/-- Literal substring containment of `q` in the second argument. -/
def containsSub (q : List Char) : List Char → Bool
  | [] => q.isEmpty
  | c :: t => leadsWith q (c :: t) || containsSub q t

/-- The string has no SQL wildcard characters. -/
def noWild (q : List Char) : Bool := q.all (fun c => !(c == '%' || c == '_'))

theorem leadsWith_nil_right (q : List Char) : leadsWith q [] = q.isEmpty := by
  cases q <;> simp [leadsWith]

/-- On a wildcard-free `q`, the pattern `q%` tests exactly that the string
starts with `q`. -/
theorem likeMatch_append_wild_eq (q : List Char) (hq : noWild q = true)
    (s : List Char) : likeMatch (q ++ ['%']) s = leadsWith q s := by
  induction q generalizing s with
  | nil => simp [leadsWith, likeMatch_wild_single s]
  | cons a q ih =>
    simp only [noWild, List.all_cons, Bool.and_eq_true, Bool.not_eq_true',
      Bool.or_eq_false_iff, beq_eq_false_iff_ne, ne_eq] at hq
    obtain ⟨⟨ha1, ha2⟩, hq⟩ := hq
    have ihq := ih (by simpa [noWild] using hq)
    cases s with
    | nil => simp [likeMatch, leadsWith, ha1]
    | cons c t =>
      have h2 : (a == '_') = false := by simp [ha2]
      simp [likeMatch, leadsWith, ha1, h2, ihq t]

/-- On a wildcard-free `q`, the pattern `%q%` tests exactly substring
containment of `q`. -/
theorem likeMatch_infix_eq (q : List Char) (hq : noWild q = true)
    (s : List Char) : likeMatch ('%' :: (q ++ ['%'])) s = containsSub q s := by
  induction s with
  | nil =>
    rw [likeMatch_wild_nil, likeMatch_append_wild_eq q hq, leadsWith_nil_right]
    simp [containsSub]
  | cons c t ih =>
    rw [likeMatch_wild_cons, likeMatch_append_wild_eq q hq, ih]
    simp [containsSub]

theorem leadsWith_iff (q s : List Char) :
    leadsWith q s = true ↔ ∃ t, s = q ++ t := by
  induction q generalizing s with
  | nil => simp [leadsWith]
  | cons a q ih =>
    cases s with
    | nil => simp [leadsWith]
    | cons b t =>
      simp only [leadsWith, Bool.and_eq_true, beq_iff_eq, ih, List.cons_append,
        List.cons.injEq]
      constructor
      · rintro ⟨rfl, u, rfl⟩; exact ⟨u, rfl, rfl⟩
      · rintro ⟨u, rfl, rfl⟩; exact ⟨rfl, u, rfl⟩

/-- `containsSub` is literal substring containment. -/
theorem containsSub_iff (q s : List Char) :
    containsSub q s = true ↔ ∃ a b, s = a ++ (q ++ b) := by
  induction s with
  | nil =>
    simp only [containsSub, List.isEmpty_iff]
    constructor
    · rintro rfl; exact ⟨[], [], rfl⟩
    · rintro ⟨a, b, h⟩
      rcases List.append_eq_nil.mp h.symm with ⟨rfl, h2⟩
      exact (List.append_eq_nil.mp h2).1
  | cons c t ih =>
    simp only [containsSub, Bool.or_eq_true, leadsWith_iff, ih]
    constructor
    · rintro (⟨u, hu⟩ | ⟨a, b, rfl⟩)
      · exact ⟨[], u, by simp [hu]⟩
      · exact ⟨c :: a, b, rfl⟩
    · rintro ⟨a, b, h⟩
      cases a with
      | nil => exact Or.inl ⟨b, by simpa using h⟩
      | cons x xs =>
        simp only [List.cons_append, List.cons.injEq] at h
        exact Or.inr ⟨xs, b, h.2⟩

/-! ## Data model

The three relational tables of the schema (spec section 3):
`medicines (id, name, type, treats, rating, price, reviews)`,
`users (id, name, profile)`,
`purchase_history (id, user_id, medicine_id, quantity, purchase_date)`. -/

structure Medicine where
  id : Nat
  name : String
  type : String
  treats : String
  rating : ℚ
  price : ℚ
  reviews : Nat
deriving DecidableEq

structure PurchaseRecord where
  id : Nat
  user_id : Nat
  medicine_id : Nat
  quantity : Nat
  purchase_date : Nat
deriving DecidableEq

structure UserRow where
  id : Nat
  name : String
  profile : String
deriving DecidableEq

structure DB where
  medicines : List Medicine
  users : List UserRow
  purchase_history : List PurchaseRecord

/-! ## Deduplication

`dedupByKey` keeps, in order, the rows whose key has not appeared earlier.
It is the behaviour of pandas `drop_duplicates(col, keep='first')` and the
embedding's deterministic refinement of SQL `GROUP BY` key enumeration.
`dedupByKeyRec` is the same operation phrased as in the specification:
"removing duplicate rows ... keeping the first occurrence". -/

def dedupByKeyAux {α κ : Type} [DecidableEq κ] (key : α → κ) (seen : List κ) :
    List α → List α
  | [] => []
  | a :: rest =>
    if key a ∈ seen then dedupByKeyAux key seen rest
    else a :: dedupByKeyAux key (key a :: seen) rest

def dedupByKey {α κ : Type} [DecidableEq κ] (key : α → κ) (l : List α) :
    List α :=
  dedupByKeyAux key [] l

def dedupByKeyRec {α κ : Type} [DecidableEq κ] (key : α → κ) :
    List α → List α
  | [] => []
  | a :: rest => a :: dedupByKeyRec key (rest.filter (fun b => key b ≠ key a))
termination_by l => l.length
decreasing_by
  simp only [List.length_cons]
  exact Nat.lt_succ_of_le (List.length_filter_le _ _)

theorem dedupByKeyAux_sublist {α κ : Type} [DecidableEq κ] (key : α → κ)
    (seen : List κ) (l : List α) : (dedupByKeyAux key seen l).Sublist l := by
  induction l generalizing seen with
  | nil => simp [dedupByKeyAux]
  | cons a rest ih =>
    by_cases h : key a ∈ seen
    · simp only [dedupByKeyAux, if_pos h]
      exact (ih seen).trans (List.sublist_cons_self a rest)
    · simp only [dedupByKeyAux, if_neg h]
      exact List.Sublist.cons₂ a (ih _)

theorem dedupByKey_sublist {α κ : Type} [DecidableEq κ] (key : α → κ)
    (l : List α) : (dedupByKey key l).Sublist l :=
  dedupByKeyAux_sublist key [] l

theorem dedupByKeyAux_keys {α κ : Type} [DecidableEq κ] (key : α → κ)
    (seen : List κ) (l : List α) :
    ((dedupByKeyAux key seen l).map key).Nodup ∧
      ∀ a ∈ dedupByKeyAux key seen l, key a ∉ seen := by
  induction l generalizing seen with
  | nil => simp [dedupByKeyAux]
  | cons a rest ih =>
    by_cases h : key a ∈ seen
    · simp only [dedupByKeyAux, if_pos h]
      exact ih seen
    · simp only [dedupByKeyAux, if_neg h, List.map_cons, List.nodup_cons]
      obtain ⟨ih1, ih2⟩ := ih (key a :: seen)
      refine ⟨⟨?_, ih1⟩, ?_⟩
      · intro hmem
        obtain ⟨b, hb, hkb⟩ := List.mem_map.mp hmem
        exact ih2 b hb (hkb ▸ List.mem_cons_self _ _)
      · intro b hb
        rcases List.mem_cons.mp hb with rfl | hb'
        · exact h
        · intro hmem
          exact ih2 b hb' (List.mem_cons_of_mem _ hmem)

theorem dedupByKey_keys_nodup {α κ : Type} [DecidableEq κ] (key : α → κ)
    (l : List α) : ((dedupByKey key l).map key).Nodup :=
  (dedupByKeyAux_keys key [] l).1

theorem dedupByKeyAux_covers {α κ : Type} [DecidableEq κ] (key : α → κ)
    (l : List α) (a : α) (ha : a ∈ l) :
    ∀ seen, key a ∉ seen → key a ∈ (dedupByKeyAux key seen l).map key := by
  induction l with
  | nil => cases ha
  | cons b rest ih =>
    intro seen hks
    by_cases h : key b ∈ seen
    · simp only [dedupByKeyAux, if_pos h]
      rcases List.mem_cons.mp ha with rfl | ha'
      · exact absurd h hks
      · exact ih ha' seen hks
    · simp only [dedupByKeyAux, if_neg h, List.map_cons]
      rcases eq_or_ne (key a) (key b) with he | hne
      · exact he ▸ List.mem_cons_self _ _
      · rcases List.mem_cons.mp ha with rfl | ha'
        · exact absurd rfl hne
        · exact List.mem_cons_of_mem _ (ih ha' (key b :: seen)
            (by simp [hks, hne]))

theorem dedupByKey_covers {α κ : Type} [DecidableEq κ] (key : α → κ)
    (l : List α) (a : α) (ha : a ∈ l) :
    key a ∈ (dedupByKey key l).map key :=
  dedupByKeyAux_covers key l a ha [] (List.not_mem_nil _)

/-- The accumulator-based dedup agrees with the specification's recursive
"keep first occurrence, drop the rest" description. -/
theorem dedupByKeyAux_eq_rec {α κ : Type} [DecidableEq κ] (key : α → κ)
    (seen : List κ) (l : List α) :
    dedupByKeyAux key seen l =
      dedupByKeyRec key (l.filter (fun a => decide (key a ∉ seen))) := by
  induction l generalizing seen with
  | nil => simp [dedupByKeyAux, dedupByKeyRec]
  | cons a rest ih =>
    by_cases h : key a ∈ seen
    · simp only [dedupByKeyAux, if_pos h]
      rw [List.filter_cons_of_neg (by simp [h])]
      exact ih seen
    · simp only [dedupByKeyAux, if_neg h]
      rw [List.filter_cons_of_pos (by simp [h]), dedupByKeyRec, ih (key a :: seen)]
      congr 1
      rw [List.filter_filter]
      refine congrArg (dedupByKeyRec key) ?_
      apply List.filter_congr
      intro b _
      by_cases hb1 : key b = key a
      · simp [hb1, h]
      · by_cases hb2 : key b ∈ seen <;> simp [hb1, hb2]

theorem dedupByKey_eq_rec {α κ : Type} [DecidableEq κ] (key : α → κ)
    (l : List α) : dedupByKey key l = dedupByKeyRec key l := by
  rw [dedupByKey, dedupByKeyAux_eq_rec]
  congr 1
  simp

/-! ## Ordering

`ORDER BY c1 DESC, c2 DESC` (and pandas `sort_values(..., ascending=False)`)
is modelled as a sort that is descending-lexicographic on a `ℚ × ℚ` key.
SQL does not fix the order of ties; the embedding refines it with a
deterministic insertion sort. -/

/-- Descending lexicographic comparison of two sort keys. -/
def keyLe (k1 k2 : ℚ × ℚ) : Bool :=
  decide (k2.1 < k1.1) || (decide (k1.1 = k2.1) && decide (k2.2 ≤ k1.2))

theorem keyLe_total (k1 k2 : ℚ × ℚ) : (keyLe k1 k2 || keyLe k2 k1) = true := by
  simp only [keyLe, Bool.or_eq_true, Bool.and_eq_true, decide_eq_true_eq]
  rcases lt_trichotomy k1.1 k2.1 with h | h | h
  · exact Or.inr (Or.inl h)
  · rcases le_total k2.2 k1.2 with h2 | h2
    · exact Or.inl (Or.inr ⟨h, h2⟩)
    · exact Or.inr (Or.inr ⟨h.symm, h2⟩)
  · exact Or.inl (Or.inl h)

theorem keyLe_trans (k1 k2 k3 : ℚ × ℚ) (h12 : keyLe k1 k2 = true)
    (h23 : keyLe k2 k3 = true) : keyLe k1 k3 = true := by
  simp only [keyLe, Bool.or_eq_true, Bool.and_eq_true, decide_eq_true_eq] at *
  rcases h12 with h1 | ⟨h1, h2⟩ <;> rcases h23 with h3 | ⟨h3, h4⟩
  · exact Or.inl (h3.trans h1)
  · exact Or.inl (h3 ▸ h1)
  · exact Or.inl (by rw [h1]; exact h3)
  · exact Or.inr ⟨h1.trans h3, h4.trans h2⟩

theorem keyLe_fst (k1 k2 : ℚ × ℚ) (h : keyLe k1 k2 = true) : k2.1 ≤ k1.1 := by
  simp only [keyLe, Bool.or_eq_true, Bool.and_eq_true, decide_eq_true_eq] at h
  rcases h with h | ⟨h, _⟩
  · exact le_of_lt h
  · exact le_of_eq h.symm

def insertOrd {α : Type} (le : α → α → Bool) (a : α) : List α → List α
  | [] => [a]
  | b :: bs => if le a b then a :: b :: bs else b :: insertOrd le a bs

def sortOrd {α : Type} (le : α → α → Bool) : List α → List α
  | [] => []
  | a :: rest => insertOrd le a (sortOrd le rest)

theorem insertOrd_perm {α : Type} (le : α → α → Bool) (a : α) (l : List α) :
    (insertOrd le a l).Perm (a :: l) := by
  induction l with
  | nil => simp [insertOrd]
  | cons b bs ih =>
    by_cases h : le a b = true
    · rw [insertOrd, if_pos h]
    · rw [insertOrd, if_neg h]
      exact (ih.cons b).trans (List.Perm.swap a b bs)

theorem sortOrd_perm {α : Type} (le : α → α → Bool) (l : List α) :
    (sortOrd le l).Perm l := by
  induction l with
  | nil => simp [sortOrd]
  | cons a rest ih =>
    exact (insertOrd_perm le a (sortOrd le rest)).trans (ih.cons a)

theorem insertOrd_pairwise {α : Type} (le : α → α → Bool)
    (htrans : ∀ x y z, le x y = true → le y z = true → le x z = true)
    (htot : ∀ x y, (le x y || le y x) = true) (a : α) (l : List α)
    (hl : l.Pairwise (fun x y => le x y = true)) :
    (insertOrd le a l).Pairwise (fun x y => le x y = true) := by
  induction l with
  | nil => simp [insertOrd]
  | cons b bs ih =>
    rcases List.pairwise_cons.mp hl with ⟨hb, hbs⟩
    by_cases hab : le a b = true
    · rw [insertOrd, if_pos hab]
      refine List.pairwise_cons.mpr ⟨?_, hl⟩
      intro x hx
      rcases List.mem_cons.mp hx with rfl | hx'
      · exact hab
      · exact htrans a b x hab (hb x hx')
    · rw [insertOrd, if_neg hab]
      have hba : le b a = true := by
        have h := htot a b
        simp only [hab, Bool.false_or] at h
        exact h
      refine List.pairwise_cons.mpr ⟨?_, ih hbs⟩
      intro x hx
      rcases List.mem_cons.mp ((insertOrd_perm le a bs).mem_iff.mp hx) with rfl | hx'
      · exact hba
      · exact hb x hx'

theorem sortOrd_pairwise {α : Type} (le : α → α → Bool)
    (htrans : ∀ x y z, le x y = true → le y z = true → le x z = true)
    (htot : ∀ x y, (le x y || le y x) = true) (l : List α) :
    (sortOrd le l).Pairwise (fun x y => le x y = true) := by
  induction l with
  | nil => simp [sortOrd]
  | cons a rest ih =>
    exact insertOrd_pairwise le htrans htot a (sortOrd le rest) ih

/-- Sort a list of rows by a `ℚ × ℚ` key, descending lexicographically. -/
def sortByKey {α : Type} (key : α → ℚ × ℚ) (l : List α) : List α :=
  sortOrd (fun x y => keyLe (key x) (key y)) l

theorem sortByKey_perm {α : Type} (key : α → ℚ × ℚ) (l : List α) :
    (sortByKey key l).Perm l :=
  sortOrd_perm _ l

theorem sortByKey_pairwise {α : Type} (key : α → ℚ × ℚ) (l : List α) :
    (sortByKey key l).Pairwise (fun x y => keyLe (key x) (key y) = true) :=
  sortOrd_pairwise (fun x y => keyLe (key x) (key y))
    (fun _ _ _ h1 h2 => keyLe_trans _ _ _ h1 h2)
    (fun _ _ => keyLe_total _ _) l

/-! ## String helpers shared by the queries -/

/-- Python `str.lower()` (ASCII). -/
def pyLower (s : String) : String := ⟨lowerStr s.data⟩

/-- MySQL `LIKE` under the default case-insensitive collation: both the
column value and the pattern are compared lower-cased. -/
def sqlLike (field pat : String) : Bool :=
  likeMatch (lowerStr pat.data) (lowerStr field.data)

/-- The Python f-string `f"%{q}%"`. -/
def likePattern (q : String) : String := ⟨'%' :: (q.data ++ ['%'])⟩

/-- MySQL string equality under the default case-insensitive collation. -/
def ciEq (s t : String) : Bool := lowerStr s.data == lowerStr t.data

/-- SQL `name IN (list)` under the case-insensitive collation. -/
def inListCi (s : String) (l : List String) : Bool := l.any (fun t => ciEq s t)

/-- MySQL `SUBSTRING_INDEX(s, ',', 1)`: the part before the first comma. -/
def firstSeg (s : String) : String := ⟨s.data.takeWhile (fun c => !(c == ','))⟩

/-- Rows of `purchase_history` referencing a medicine id. -/
def purchasesOf (db : DB) (mid : Nat) : List PurchaseRecord :=
  db.purchase_history.filter (fun p => p.medicine_id == mid)

/-! ## `search_medicines_db` (app.py lines 112-154) -/

/-- A result row of the search query: `SELECT *` of `medicines` plus the
computed `relevance_score` column. -/
structure SearchRow where
  med : Medicine
  relevance_score : Nat
deriving DecidableEq

/-- The `ORDER BY relevance_score DESC, rating DESC` key. -/
def searchKey (r : SearchRow) : ℚ × ℚ := ((r.relevance_score : ℚ), r.med.rating)

/-- `search_medicines_db(connection, query, search_type)` on a live
connection.  `query_lower` is `f"%{query.lower()}%"`; the `medicine` branch
filters on `name LIKE`, the `symptom` branch on `treats LIKE`, any other
`search_type` falls into the `else` branch combining both with a scoring
`CASE` (2 for a name match, else 1 for a treats match). -/
def search_medicines_db (db : DB) (query : String) (search_type : String) :
    List SearchRow :=
  let query_lower : String := likePattern (pyLower query)
  if search_type = "medicine" then
    sortByKey searchKey
      ((db.medicines.filter (fun m => sqlLike m.name query_lower)).map
        (fun m => ⟨m, if sqlLike m.name query_lower then 2 else 0⟩))
  else if search_type = "symptom" then
    sortByKey searchKey
      ((db.medicines.filter (fun m => sqlLike m.treats query_lower)).map
        (fun m => ⟨m, if sqlLike m.treats query_lower then 1 else 0⟩))
  else
    sortByKey searchKey
      ((db.medicines.filter
          (fun m => sqlLike m.name query_lower || sqlLike m.treats query_lower)).map
        (fun m =>
          if sqlLike m.name query_lower then ⟨m, 2⟩
          else if sqlLike m.treats query_lower then ⟨m, 1⟩ else ⟨m, 0⟩))

/-- How `main` (app.py line 341) turns the selectbox label into the
`search_type` argument: `search_type.lower().replace(" ", "_")`. -/
def uiSearchType (label : String) : String :=
  ⟨(lowerStr label.data).map (fun c => if c == ' ' then '_' else c)⟩

/-! ## `load_medicines_from_db` (app.py lines 83-96) -/

/-- A catalog row: `m.*` plus the correlated `purchase_count` subquery. -/
structure MedRow where
  med : Medicine
  purchase_count : Nat
deriving DecidableEq

/-- The SQL part of `load_medicines_from_db`: `GROUP BY` over all medicine
columns (a no-op dedup on the full tuple), `purchase_count` =
`COUNT(DISTINCT ph.id)` of referencing purchases, `ORDER BY rating DESC`. -/
def loadQuery (db : DB) : List MedRow :=
  sortByKey (fun r => (r.med.rating, 0))
    ((dedupByKey
        (fun m => (m.id, m.name, m.type, m.treats, m.rating, m.price, m.reviews))
        db.medicines).map
      (fun m => ⟨m, ((purchasesOf db m.id).map (fun p => p.id)).dedup.length⟩))

/-- `load_medicines_from_db`: the query result, then, when non-empty,
pandas `drop_duplicates('name', keep='first')`. -/
def load_medicines_from_db (db : DB) : List MedRow :=
  let df := loadQuery db
  if df.isEmpty then df else dedupByKey (fun r => r.med.name) df

/-! ## `get_user_history` (app.py lines 98-110) -/

/-- An aggregated history row.  The SQL projects `m.name, m.type, m.rating,
m.price, SUM(ph.quantity), MAX(ph.purchase_date)`; the embedding also keeps
the `GROUP BY` key column `m.id` as `mid` so that per-group facts can be
stated. -/
structure HistRow where
  mid : Nat
  name : String
  type : String
  rating : ℚ
  price : ℚ
  total_quantity : Nat
  latest_purchase_date : Nat
deriving DecidableEq

/-- `FROM purchase_history ph JOIN medicines m ON ph.medicine_id = m.id
WHERE ph.user_id = uid`. -/
def userJoin (db : DB) (uid : Nat) : List (PurchaseRecord × Medicine) :=
  (db.purchase_history.filter (fun p => p.user_id == uid)).flatMap
    (fun p => (db.medicines.filter (fun m => p.medicine_id == m.id)).map
      (fun m => (p, m)))

/-- The `GROUP BY m.id, m.name, m.rating, m.price` key. -/
def histKey (pm : PurchaseRecord × Medicine) : Nat × String × ℚ × ℚ :=
  (pm.2.id, pm.2.name, pm.2.rating, pm.2.price)

/-- `get_user_history(connection, user_id)` on a live connection: join the
user's purchases with `medicines`, aggregate per group (`SUM(quantity)`,
`MAX(purchase_date)`), `ORDER BY latest_purchase_date DESC`. -/
def get_user_history (db : DB) (uid : Nat) : List HistRow :=
  let joined := userJoin db uid
  sortByKey (fun r => ((r.latest_purchase_date : ℚ), 0))
    ((dedupByKey histKey joined).map (fun pm =>
      let grp := joined.filter (fun qn => histKey qn == histKey pm)
      { mid := pm.2.id, name := pm.2.name, type := pm.2.type,
        rating := pm.2.rating, price := pm.2.price,
        total_quantity := (grp.map (fun qn => qn.1.quantity)).sum,
        latest_purchase_date := (grp.map (fun qn => qn.1.purchase_date)).foldr max 0 }))

/-! ## `generate_recommendations_db` (app.py lines 156-230) -/

/-- A row of the category query: `SELECT DISTINCT m2.name, m2.rating,
m2.type, COUNT(ph.id) as popularity_score`. -/
structure CatRow where
  name : String
  rating : ℚ
  type : String
  popularity_score : Nat
deriving DecidableEq

/-- A row of the symptom query: `SELECT DISTINCT m2.name, m2.rating,
(subquery) as popularity`. -/
structure SymRow where
  name : String
  rating : ℚ
  popularity : Nat
deriving DecidableEq

/-- A row of the popularity query: `SELECT name, rating, reviews,
COUNT(ph.id) as purchase_count`. -/
structure PopRow where
  name : String
  rating : ℚ
  reviews : Nat
  purchase_count : Nat
deriving DecidableEq

/-- The category query: self-join of `medicines` on equal `type`, `m1.name`
in the history, `m2.name` not in it, grouped by `m2`; `COUNT(ph.id)` over
the group counts each matching `m1` once per purchase of `m2` (zero when
`m2` has no purchases, from the `LEFT JOIN`); `ORDER BY m2.rating DESC,
popularity_score DESC LIMIT 3`. -/
def category_recs (db : DB) (hist : List String) : List CatRow :=
  let cand := db.medicines.filter (fun m2 =>
    (db.medicines.any (fun m1 => inListCi m1.name hist && ciEq m1.type m2.type)) &&
      !(inListCi m2.name hist))
  let groups := dedupByKey (fun m2 => (m2.id, m2.name, m2.rating, m2.type)) cand
  let rows := groups.map (fun m2 =>
    (⟨m2.name, m2.rating, m2.type,
      (db.medicines.filter
          (fun m1 => inListCi m1.name hist && ciEq m1.type m2.type)).length *
        (purchasesOf db m2.id).length⟩ : CatRow))
  (sortByKey (fun r => (r.rating, (r.popularity_score : ℚ)))
    (dedupByKey (fun r => r) rows)).take 3

/-- The symptom-overlap join condition of the symptom query:
`m2.treats LIKE CONCAT('%', SUBSTRING_INDEX(m1.treats, ',', 1), '%') OR
m1.treats LIKE CONCAT('%', SUBSTRING_INDEX(m2.treats, ',', 1), '%')`. -/
def symCond (m1 m2 : Medicine) : Bool :=
  sqlLike m2.treats (likePattern (firstSeg m1.treats)) ||
    sqlLike m1.treats (likePattern (firstSeg m2.treats))

/-- The symptom query: self-join on `symCond`, `m1.name` in the history,
`m2.name` not in it, `SELECT DISTINCT`, popularity = number of purchases of
`m2`; `ORDER BY m2.rating DESC, popularity DESC LIMIT 3`. -/
def symptom_recs (db : DB) (hist : List String) : List SymRow :=
  let cand := db.medicines.filter (fun m2 =>
    (db.medicines.any (fun m1 => inListCi m1.name hist && symCond m1 m2)) &&
      !(inListCi m2.name hist))
  let rows := cand.map (fun m2 =>
    (⟨m2.name, m2.rating, (purchasesOf db m2.id).length⟩ : SymRow))
  (sortByKey (fun r => (r.rating, (r.popularity : ℚ)))
    (dedupByKey (fun r => r) rows)).take 3

/-- The popularity query: all medicines not in the history, grouped per
medicine, `purchase_count` = `COUNT(ph.id)` from the `LEFT JOIN`; `ORDER BY
purchase_count DESC, rating DESC LIMIT 2`. -/
def popular_recs (db : DB) (hist : List String) : List PopRow :=
  let groups := dedupByKey (fun m => (m.id, m.name, m.rating, m.reviews))
    (db.medicines.filter (fun m => !(inListCi m.name hist)))
  let rows := groups.map (fun m =>
    (⟨m.name, m.rating, m.reviews, (purchasesOf db m.id).length⟩ : PopRow))
  (sortByKey (fun r => ((r.purchase_count : ℚ), r.rating)) rows).take 2

/-- A row of the concatenated recommendation frame.  `pd.concat` takes the
union of columns; the `type` column exists only for category rows (`NaN`,
here `none`, elsewhere), and `assign(source=...)` tags the origin.  The
popularity columns are dropped: no later step reads them. -/
structure RecRow where
  name : String
  rating : ℚ
  type : Option String
  source : String
deriving DecidableEq

/-- The concatenation `pd.concat([category_recs.assign(source='category'),
symptom_recs.assign(source='symptom'), popular_recs.assign(source='popular')])`. -/
def recUnion (db : DB) (hist : List String) : List RecRow :=
  (category_recs db hist).map (fun r => ⟨r.name, r.rating, some r.type, "category"⟩) ++
    (symptom_recs db hist).map (fun r => ⟨r.name, r.rating, none, "symptom"⟩) ++
    (popular_recs db hist).map (fun r => ⟨r.name, r.rating, none, "popular"⟩)

/-- One entry of the JSON response. -/
structure RecOut where
  name : String
  type : Option String
  rating : ℚ
  source : String
deriving DecidableEq

/-- The JSON-compatible dictionary built at app.py lines 217-228.
`timestamp` is `pd.Timestamp.now()`, passed in as a parameter. -/
structure RecJson where
  recommendations : List RecOut
  based_on_history : List String
  timestamp : Nat
deriving DecidableEq

/-- Which of the three SQL queries a call to the database executed; used to
state that the early-return path runs none of them. -/
inductive QueryTag where
  | category
  | symptom
  | popular
deriving DecidableEq

/-- `generate_recommendations_db(connection, user_history_names)` on a live
connection.  A falsy (empty) history returns `([], {})` at once; otherwise
the three queries run, their frames are concatenated,
`drop_duplicates('name')` keeps the first row per name, `sort_values
('rating', ascending=False)` sorts, `head(4)` truncates, and the function
returns the name list together with the JSON dictionary.  The second
component of the outer pair records which queries were executed. -/
def generate_recommendations_db (db : DB) (user_history_names : List String)
    (now : Nat) : (List String × Option RecJson) × List QueryTag :=
  if user_history_names.isEmpty then (([], none), [])
  else
    let all_recs := recUnion db user_history_names
    let unique_recs := dedupByKey (fun r => r.name) all_recs
    let top_recs := (sortByKey (fun r => (r.rating, 0)) unique_recs).take 4
    ((top_recs.map (fun r => r.name),
      some { recommendations := top_recs.map (fun r =>
               ⟨r.name, r.type, if r.rating == 0 then 0 else r.rating, r.source⟩),
             based_on_history := user_history_names,
             timestamp := now }),
      [QueryTag.category, QueryTag.symptom, QueryTag.popular])

/-! ## `execute_query` and the connection cache (app.py lines 37-81)

`execute_query` is effectful: it touches the connection, may call
`get_db_connection()` again, runs the cursor, and catches
`mysql.connector.Error`.  The embedding threads the outcomes of those
effects in as an environment and returns, besides the DataFrame rows, the
user-facing messages shown and the connection events performed. -/

/-- The observable state of a `mysql.connector` connection object. -/
structure ConnState where
  is_connected : Bool
deriving DecidableEq

/-- Outcome of `cursor.execute` + `fetchall`: rows, or a raised
`mysql.connector.Error`. -/
inductive QueryOutcome (α : Type) where
  | ok (rows : List α)
  | err
deriving DecidableEq

/-- User-facing messages `execute_query` can emit. -/
inductive UIMsg where
  | reconnectingWarning
  | reconnectFailed
  | queryError
deriving DecidableEq

/-- Connection-level actions `execute_query` can perform. -/
inductive DbEvent where
  | pinged (reconnect : Bool) (attempts : Nat) (delay : Nat)
  | freshRequested
  | executed
deriving DecidableEq

/-- The environment of effect outcomes for one `execute_query` call:
the connection argument, whether `ping(reconnect=True, ...)` succeeds,
what `get_db_connection()` would return on the reconnect path, and the
cursor outcome for the query. -/
structure QueryEnv (α : Type) where
  conn : Option ConnState
  pingOk : Bool
  fresh : Option ConnState
  outcome : QueryOutcome α

/-- Running the cursor once a live connection is at hand: rows on success,
caught `Error` plus the `Query Error` message otherwise. -/
def runFetch {α : Type} (outcome : QueryOutcome α) (msgs : List UIMsg)
    (evts : List DbEvent) : List α × List UIMsg × List DbEvent :=
  match outcome with
  | .ok rows => (rows, msgs, evts ++ [DbEvent.executed])
  | .err => ([], msgs ++ [UIMsg.queryError], evts ++ [DbEvent.executed])

/-- The `else` path of `execute_query`: warn, call `get_db_connection()`
again, and run the query only if that produced a live connection. -/
def reconnectPath {α : Type} (env : QueryEnv α) :
    List α × List UIMsg × List DbEvent :=
  match env.fresh with
  | some c2 =>
    if c2.is_connected then
      runFetch env.outcome [UIMsg.reconnectingWarning] [DbEvent.freshRequested]
    else ([], [UIMsg.reconnectingWarning, UIMsg.reconnectFailed],
      [DbEvent.freshRequested])
  | none => ([], [UIMsg.reconnectingWarning, UIMsg.reconnectFailed],
      [DbEvent.freshRequested])

/-- `execute_query(connection, query, params)`.  A live connection is pinged
with `reconnect=True, attempts=3, delay=1` (a ping failure raises `Error`,
caught by the handler); a dead or missing one goes through the reconnect
path.  Every raised `mysql.connector.Error` is caught and turned into an
empty DataFrame, so no database error propagates to the caller. -/
def execute_query {α : Type} (env : QueryEnv α) :
    List α × List UIMsg × List DbEvent :=
  match env.conn with
  | some c =>
    if c.is_connected then
      if env.pingOk then runFetch env.outcome [] [DbEvent.pinged true 3 1]
      else ([], [UIMsg.queryError], [DbEvent.pinged true 3 1])
    else reconnectPath env
  | none => reconnectPath env

/-- Modelled from the spec: `get_db_connection` is decorated with
`@st.cache_resource` (the Streamlit library, not part of this repository),
which computes the resource on the first call and returns the cached value
on every later call — "one pooled database connection reused across calls".
`cache` is the cached value if any, `compute` the connection the body would
produce. -/
def cachedCall {α : Type} (cache : Option α) (compute : α) : α × Option α :=
  match cache with
  | some v => (v, some v)
  | none => (compute, some compute)

/-! ## Shared helper lemmas -/

theorem mem_sortByKey {α : Type} (key : α → ℚ × ℚ) (l : List α) (x : α) :
    x ∈ sortByKey key l ↔ x ∈ l :=
  (sortByKey_perm key l).mem_iff

/-- Exact membership in a history list implies membership under the
case-insensitive `IN`. -/
theorem inListCi_of_mem (n : String) (hist : List String) (h : n ∈ hist) :
    inListCi n hist = true := by
  unfold inListCi
  exact List.any_eq_true.mpr ⟨n, h, by simp [ciEq]⟩

/-- Sample rows used by the witnesses. -/
def wMed1 : Medicine := ⟨1, "Aspirin", "Painkiller", "headache, pain, fever", 8, 5, 100⟩

def wMed2 : Medicine := ⟨2, "Tylenol", "Painkiller", "headache, fever", 9, 6, 50⟩

def wMed3 : Medicine := ⟨3, "Metformin", "Diabetes", "diabetes", 7, 10, 80⟩

def wPur1 : PurchaseRecord := ⟨1, 10, 1, 2, 100⟩

def wPur2 : PurchaseRecord := ⟨2, 10, 1, 3, 200⟩

def wPur3 : PurchaseRecord := ⟨3, 11, 2, 1, 150⟩

def wDB : DB := ⟨[wMed1, wMed2, wMed3], [], [wPur1, wPur2, wPur3]⟩

/-! ## Claims -/

/-- C10: called with an empty (falsy) history list,
`generate_recommendations_db` returns the empty list and the empty
dictionary at once and executes no database query. -/
theorem claim_C10 (db : DB) (now : Nat) :
    generate_recommendations_db db [] now = (([], none), []) := rfl

/-- C8: every `search_type` other than exactly `"medicine"` or
`"symptom"` — in particular the strings `"medicine_only"` and
`"symptoms_only"` that the UI produces by lower-casing the selectbox label
and replacing spaces with underscores — takes the `else` branch, i.e.
returns exactly what the combined name-or-treats (`"both"`) query
returns. -/
theorem claim_C8 :
    (∀ (db : DB) (q st : String), st ≠ "medicine" → st ≠ "symptom" →
      search_medicines_db db q st = search_medicines_db db q "both") ∧
    uiSearchType "Medicine Only" = "medicine_only" ∧
    uiSearchType "Symptoms Only" = "symptoms_only" ∧
    uiSearchType "Both" = "both" := by
  refine ⟨?_, by decide, by decide, by decide⟩
  intro db q st h1 h2
  rw [search_medicines_db, search_medicines_db]
  rw [if_neg h1, if_neg h2, if_neg (by decide), if_neg (by decide)]

/-- Witness for C8 at a concrete input. -/
theorem claim_C8_witness :
    search_medicines_db wDB "aspirin" "medicine_only" =
      search_medicines_db wDB "aspirin" "both" :=
  claim_C8.1 wDB "aspirin" "medicine_only" (by decide) (by decide)

/-- A connection option that is absent or reports itself not connected:
the condition `if connection and connection.is_connected()` is false. -/
def deadConn (oc : Option ConnState) : Prop :=
  oc = none ∨ oc = some ⟨false⟩

instance (oc : Option ConnState) : Decidable (deadConn oc) := by
  unfold deadConn; infer_instance

/-- C3: `execute_query` never propagates a database error: whatever the
connection situation, a raised `mysql.connector.Error` from the execution
yields an empty DataFrame (and, whenever the cursor actually ran, the
user-facing `Query Error` message), and a successful query with zero rows
also yields an empty DataFrame. -/
theorem claim_C3 (α : Type) (conn : Option ConnState) (pingOk : Bool)
    (fresh : Option ConnState) :
    (execute_query (⟨conn, pingOk, fresh, QueryOutcome.err⟩ : QueryEnv α)).1 = [] ∧
    (execute_query (⟨conn, pingOk, fresh, QueryOutcome.ok []⟩ : QueryEnv α)).1 = [] ∧
    (DbEvent.executed ∈
        (execute_query (⟨conn, pingOk, fresh, QueryOutcome.err⟩ : QueryEnv α)).2.2 →
      UIMsg.queryError ∈
        (execute_query (⟨conn, pingOk, fresh, QueryOutcome.err⟩ : QueryEnv α)).2.1) := by
  rcases conn with _ | c
  · rcases fresh with _ | c2
    · simp [execute_query, reconnectPath]
    · rcases c2 with ⟨_ | _⟩ <;>
        simp [execute_query, reconnectPath, runFetch]
  · rcases c with ⟨_ | _⟩
    · rcases fresh with _ | c2
      · simp [execute_query, reconnectPath]
      · rcases c2 with ⟨_ | _⟩ <;>
          simp [execute_query, reconnectPath, runFetch]
    · rcases pingOk with _ | _ <;>
        simp [execute_query, reconnectPath, runFetch]

/-- Witness for C3 at a concrete input: live connection, successful ping,
erroring query. -/
theorem claim_C3_witness :
    (execute_query (⟨some ⟨true⟩, true, none, QueryOutcome.err⟩ : QueryEnv Nat)).1 = [] ∧
    UIMsg.queryError ∈
      (execute_query (⟨some ⟨true⟩, true, none, QueryOutcome.err⟩ : QueryEnv Nat)).2.1 :=
  ⟨(claim_C3 Nat (some ⟨true⟩) true none).1,
    (claim_C3 Nat (some ⟨true⟩) true none).2.2 (by decide)⟩

/-- C7: a single cached connection is reused across calls
(`@st.cache_resource`), and `execute_query` does a best-effort reconnect
first: a connected connection is pinged with `reconnect=True, attempts=3,
delay=1` and no fresh connection is requested; a dead or missing one causes
`get_db_connection()` to be called again; and when that also yields no live
connection the call returns an empty DataFrame without executing the
query. -/
theorem claim_C7 :
    (∀ (compute1 compute2 : Option ConnState),
      (cachedCall (cachedCall (none : Option (Option ConnState)) compute1).2
          compute2).1 =
        (cachedCall (none : Option (Option ConnState)) compute1).1) ∧
    (∀ (α : Type) (pingOk : Bool) (fresh : Option ConnState)
        (outcome : QueryOutcome α),
      DbEvent.pinged true 3 1 ∈
          (execute_query ⟨some ⟨true⟩, pingOk, fresh, outcome⟩).2.2 ∧
        DbEvent.freshRequested ∉
          (execute_query ⟨some ⟨true⟩, pingOk, fresh, outcome⟩).2.2) ∧
    (∀ (α : Type) (conn : Option ConnState) (pingOk : Bool)
        (fresh : Option ConnState) (outcome : QueryOutcome α),
      deadConn conn →
        DbEvent.freshRequested ∈ (execute_query ⟨conn, pingOk, fresh, outcome⟩).2.2) ∧
    (∀ (α : Type) (conn : Option ConnState) (pingOk : Bool)
        (fresh : Option ConnState) (outcome : QueryOutcome α),
      deadConn conn → deadConn fresh →
        (execute_query ⟨conn, pingOk, fresh, outcome⟩).1 = [] ∧
          DbEvent.executed ∉ (execute_query ⟨conn, pingOk, fresh, outcome⟩).2.2) := by
  refine ⟨?_, ?_, ?_, ?_⟩
  · intro compute1 compute2
    simp [cachedCall]
  · intro α pingOk fresh outcome
    rcases pingOk with _ | _
    · simp [execute_query]
    · rcases outcome with rows | _ <;> simp [execute_query, runFetch]
  · intro α conn pingOk fresh outcome hc
    rcases hc with rfl | rfl <;>
      · rcases fresh with _ | c2
        · simp [execute_query, reconnectPath]
        · rcases c2 with ⟨_ | _⟩ <;>
            rcases outcome with rows | _ <;>
              simp [execute_query, reconnectPath, runFetch]
  · intro α conn pingOk fresh outcome hc hf
    rcases hc with rfl | rfl <;> rcases hf with rfl | rfl <;>
      simp [execute_query, reconnectPath]

/-- Witness for C7 at concrete inputs: dead connection, dead reconnect. -/
theorem claim_C7_witness :
    DbEvent.freshRequested ∈
        (execute_query (⟨none, true, some ⟨false⟩, QueryOutcome.ok [0]⟩ :
          QueryEnv Nat)).2.2 ∧
      (execute_query (⟨none, true, some ⟨false⟩, QueryOutcome.ok [0]⟩ :
          QueryEnv Nat)).1 = [] :=
  ⟨claim_C7.2.2.1 Nat none true (some ⟨false⟩) (QueryOutcome.ok [0])
      (Or.inl rfl),
    (claim_C7.2.2.2 Nat none true (some ⟨false⟩) (QueryOutcome.ok [0])
      (Or.inl rfl) (Or.inr rfl)).1⟩

/-- Evaluating `sqlLike` on the pattern `f"%{query.lower()}%"`: the collation
lower-casing is absorbed by the idempotence of lower-casing. -/
theorem sqlLike_pattern (q s : String) :
    sqlLike s (likePattern (pyLower q)) =
      likeMatch ('%' :: ((pyLower q).data ++ ['%'])) (lowerStr s.data) := by
  unfold sqlLike likePattern pyLower
  have h : lowerChar '%' = '%' := by decide
  have h2 : List.map (lowerChar ∘ lowerChar) q.data = List.map lowerChar q.data := by
    simp [Function.comp, lowerChar_idem]
  simp only [lowerStr, List.map_cons, List.map_append, List.map_map, List.map_nil,
    h, h2]

/-- A column value always `LIKE`-matches the `%...%` pattern built from its
own (lower-cased) content: case-insensitivity makes the lower-cased query
a substring, wildcards in the value only match more. -/
theorem sqlLike_self (s : String) : sqlLike s (likePattern (pyLower s)) = true := by
  rw [sqlLike_pattern]
  exact likeMatch_query_self (lowerStr s.data)

/-- C1: for every medicine row in the catalog and `search_type`
`"medicine"` or `"both"`, searching for that medicine's name returns a
result set containing that row, with `relevance_score` 2. -/
theorem claim_C1 (db : DB) (m : Medicine) (hm : m ∈ db.medicines)
    (st : String) (hst : st = "medicine" ∨ st = "both") :
    ∃ r ∈ search_medicines_db db m.name st, r.med = m ∧ r.relevance_score = 2 := by
  have hlike := sqlLike_self m.name
  rcases hst with rfl | rfl
  · refine ⟨⟨m, 2⟩, ?_, rfl, rfl⟩
    rw [search_medicines_db, if_pos rfl, mem_sortByKey]
    apply List.mem_map.mpr
    exact ⟨m, List.mem_filter.mpr ⟨hm, hlike⟩, by simp [hlike]⟩
  · refine ⟨⟨m, 2⟩, ?_, rfl, rfl⟩
    rw [search_medicines_db, if_neg (by decide), if_neg (by decide), mem_sortByKey]
    apply List.mem_map.mpr
    exact ⟨m, List.mem_filter.mpr ⟨hm, by simp [hlike]⟩, by simp [hlike]⟩

/-- Witness for C1 at a concrete input. -/
theorem claim_C1_witness :
    ∃ r ∈ search_medicines_db wDB wMed1.name "both",
      r.med = wMed1 ∧ r.relevance_score = 2 :=
  claim_C1 wDB wMed1 (by decide) "both" (Or.inr rfl)

/-- A `sortByKey` result is sorted descending on the first key
component. -/
theorem sortByKey_pairwise_fst {α : Type} (key : α → ℚ × ℚ) (l : List α) :
    (sortByKey key l).Pairwise (fun a b => (key b).1 ≤ (key a).1) :=
  (sortByKey_pairwise key l).imp (fun h => keyLe_fst _ _ h)

/-- C5: the catalog returned by `load_medicines_from_db` holds at most one
row per medicine name and is ordered by rating in descending order. -/
theorem claim_C5 (db : DB) :
    ((load_medicines_from_db db).map (fun r => r.med.name)).Nodup ∧
    ((load_medicines_from_db db).map (fun r => r.med.rating)).Sorted (· ≥ ·) := by
  unfold load_medicines_from_db
  by_cases h : (loadQuery db).isEmpty
  · rw [if_pos h]
    rw [List.isEmpty_iff.mp h]
    simp [List.Sorted]
  · rw [if_neg h]
    constructor
    · exact dedupByKey_keys_nodup (fun r : MedRow => r.med.name) (loadQuery db)
    · have hp : (loadQuery db).Pairwise
          (fun a b : MedRow => b.med.rating ≤ a.med.rating) :=
        sortByKey_pairwise_fst (fun r : MedRow => (r.med.rating, 0)) _
      have hd := List.Pairwise.sublist
        (dedupByKey_sublist (fun r : MedRow => r.med.name) (loadQuery db)) hp
      exact List.pairwise_map.mpr hd

/-- A name whose case-insensitive `IN` test is false is in particular not an
exact member of the list. -/
theorem notin_of_inListCi_false (n : String) (hist : List String)
    (hf : inListCi n hist = false) : n ∉ hist := by
  intro hm
  rw [inListCi_of_mem n hist hm] at hf
  exact Bool.true_eq_false.mp hf

/-- C2: for a non-empty history, `generate_recommendations_db` forms its
result by concatenating the three query results (`recUnion`), removing
duplicate rows by medicine name keeping the first occurrence
(`dedupByKeyRec`, the specification's phrasing of the dedup), sorting by
rating in descending order, and truncating to four rows; the returned name
list is the names of that pipeline, its ratings are sorted descending, and
the names are pairwise distinct. -/
theorem claim_C2 (db : DB) (hist : List String) (now : Nat) (h : hist ≠ []) :
    ((generate_recommendations_db db hist now).1).1 =
      ((sortByKey (fun r => (r.rating, 0))
          (dedupByKeyRec (fun r : RecRow => r.name) (recUnion db hist))).take 4).map
        (fun r => r.name) ∧
    (((sortByKey (fun r => (r.rating, 0))
        (dedupByKeyRec (fun r : RecRow => r.name) (recUnion db hist))).take 4).map
      (fun r => r.rating)).Sorted (· ≥ ·) ∧
    (((generate_recommendations_db db hist now).1).1).Nodup := by
  have hne : hist.isEmpty = false := by
    cases hist with
    | nil => exact absurd rfl h
    | cons a t => rfl
  refine ⟨?_, ?_, ?_⟩
  · simp [generate_recommendations_db, hne, dedupByKey_eq_rec]
  · have hp : (sortByKey (fun r : RecRow => (r.rating, 0))
        (dedupByKeyRec (fun r : RecRow => r.name) (recUnion db hist))).Pairwise
        (fun a b : RecRow => b.rating ≤ a.rating) :=
      sortByKey_pairwise_fst (fun r : RecRow => (r.rating, 0)) _
    exact List.pairwise_map.mpr (List.Pairwise.sublist (List.take_sublist 4 _) hp)
  · simp only [generate_recommendations_db, hne, Bool.false_eq_true, if_false]
    have h1 : ((dedupByKey (fun r : RecRow => r.name) (recUnion db hist)).map
        (fun r => r.name)).Nodup :=
      dedupByKey_keys_nodup (fun r : RecRow => r.name) (recUnion db hist)
    have h2 : ((sortByKey (fun r : RecRow => (r.rating, 0))
          (dedupByKey (fun r : RecRow => r.name) (recUnion db hist))).map
        (fun r => r.name)).Nodup :=
      ((sortByKey_perm (fun r : RecRow => (r.rating, 0)) _).map
        (fun r : RecRow => r.name)).symm.nodup_iff.mp h1
    have h3 := List.Nodup.sublist
      (List.Sublist.map (fun r : RecRow => r.name) (List.take_sublist 4 _)) h2
    simpa using h3

/-- Witness for C2 at a concrete input. -/
theorem claim_C2_witness :
    ((generate_recommendations_db wDB ["Aspirin"] 0).1).1 =
      ((sortByKey (fun r => (r.rating, 0))
          (dedupByKeyRec (fun r : RecRow => r.name)
            (recUnion wDB ["Aspirin"]))).take 4).map (fun r => r.name) :=
  (claim_C2 wDB ["Aspirin"] 0 (by decide)).1

/-- C9: for a non-empty history, each of the three recommendation queries
excludes medicines whose name is in the history, and consequently no name
returned by `generate_recommendations_db` is a member of the input history
list. -/
theorem claim_C9 (db : DB) (hist : List String) (now : Nat) (h : hist ≠ []) :
    (∀ r ∈ category_recs db hist, r.name ∉ hist) ∧
    (∀ r ∈ symptom_recs db hist, r.name ∉ hist) ∧
    (∀ r ∈ popular_recs db hist, r.name ∉ hist) ∧
    (∀ n ∈ ((generate_recommendations_db db hist now).1).1, n ∉ hist) := by
  have hne : hist.isEmpty = false := by
    cases hist with
    | nil => exact absurd rfl h
    | cons a t => rfl
  have hcat : ∀ r ∈ category_recs db hist, r.name ∉ hist := by
    intro r hr
    have hr2 : r ∈ (dedupByKey (fun m2 : Medicine => (m2.id, m2.name, m2.rating, m2.type))
        (db.medicines.filter (fun m2 =>
          (db.medicines.any (fun m1 => inListCi m1.name hist && ciEq m1.type m2.type)) &&
            !(inListCi m2.name hist)))).map (fun m2 =>
        (⟨m2.name, m2.rating, m2.type,
          (db.medicines.filter
              (fun m1 => inListCi m1.name hist && ciEq m1.type m2.type)).length *
            (purchasesOf db m2.id).length⟩ : CatRow)) := by
      have := List.mem_of_mem_take hr
      rw [mem_sortByKey] at this
      exact (dedupByKey_sublist (fun r : CatRow => r) _).subset this
    obtain ⟨m2, hm2, rfl⟩ := List.mem_map.mp hr2
    have hm2' := (dedupByKey_sublist _ _).subset hm2
    have hcond := (List.mem_filter.mp hm2').2
    have hfalse : inListCi m2.name hist = false := by
      rcases Bool.and_eq_true .. |>.mp hcond with ⟨_, hb⟩
      exact Bool.not_eq_true' .. |>.mp hb
    exact notin_of_inListCi_false _ _ hfalse
  have hsym : ∀ r ∈ symptom_recs db hist, r.name ∉ hist := by
    intro r hr
    have hr2 : r ∈ (db.medicines.filter (fun m2 =>
        (db.medicines.any (fun m1 => inListCi m1.name hist && symCond m1 m2)) &&
          !(inListCi m2.name hist))).map (fun m2 =>
        (⟨m2.name, m2.rating, (purchasesOf db m2.id).length⟩ : SymRow)) := by
      have := List.mem_of_mem_take hr
      rw [mem_sortByKey] at this
      exact (dedupByKey_sublist (fun r : SymRow => r) _).subset this
    obtain ⟨m2, hm2, rfl⟩ := List.mem_map.mp hr2
    have hcond := (List.mem_filter.mp hm2).2
    have hfalse : inListCi m2.name hist = false := by
      rcases Bool.and_eq_true .. |>.mp hcond with ⟨_, hb⟩
      exact Bool.not_eq_true' .. |>.mp hb
    exact notin_of_inListCi_false _ _ hfalse
  have hpop : ∀ r ∈ popular_recs db hist, r.name ∉ hist := by
    intro r hr
    have hr2 : r ∈ (dedupByKey (fun m : Medicine => (m.id, m.name, m.rating, m.reviews))
        (db.medicines.filter (fun m => !(inListCi m.name hist)))).map (fun m =>
        (⟨m.name, m.rating, m.reviews, (purchasesOf db m.id).length⟩ : PopRow)) := by
      have := List.mem_of_mem_take hr
      rw [mem_sortByKey] at this
      exact this
    obtain ⟨m, hm, rfl⟩ := List.mem_map.mp hr2
    have hm' := (dedupByKey_sublist _ _).subset hm
    have hcond := (List.mem_filter.mp hm').2
    have hfalse : inListCi m.name hist = false := Bool.not_eq_true' .. |>.mp hcond
    exact notin_of_inListCi_false _ _ hfalse
  refine ⟨hcat, hsym, hpop, ?_⟩
  intro n hn
  simp only [generate_recommendations_db, hne, Bool.false_eq_true, if_false] at hn
  obtain ⟨r, hr, rfl⟩ := List.mem_map.mp hn
  have hr2 : r ∈ recUnion db hist := by
    have h1 := List.mem_of_mem_take hr
    rw [mem_sortByKey] at h1
    exact (dedupByKey_sublist (fun r : RecRow => r.name) _).subset h1
  unfold recUnion at hr2
  rcases List.mem_append.mp hr2 with h12 | h3
  · rcases List.mem_append.mp h12 with h1 | h2
    · obtain ⟨c, hc, rfl⟩ := List.mem_map.mp h1
      exact hcat c hc
    · obtain ⟨c, hc, rfl⟩ := List.mem_map.mp h2
      exact hsym c hc
  · obtain ⟨c, hc, rfl⟩ := List.mem_map.mp h3
    exact hpop c hc

/-- Witness for C9 at a concrete input: `"Tylenol"` is among the returned
recommendations and, by C9, not in the history. -/
theorem claim_C9_witness :
    "Tylenol" ∈ ((generate_recommendations_db wDB ["Aspirin"] 0).1).1 ∧
      "Tylenol" ∉ ["Aspirin"] :=
  ⟨by decide, (claim_C9 wDB ["Aspirin"] 0 (by decide)).2.2.2 "Tylenol" (by decide)⟩

/-- For a wildcard-free query, the `LIKE '%query.lower()%'` test is exactly
case-insensitive substring containment. -/
theorem sqlLike_containsSub (q s : String) (hq : noWild (pyLower q).data = true) :
    sqlLike s (likePattern (pyLower q)) =
      containsSub (pyLower q).data (lowerStr s.data) := by
  rw [sqlLike_pattern]
  exact likeMatch_infix_eq _ hq _

/-- The database used by the counterexample: one medicine with an
upper-case letter in its name. -/
def cexDB : DB := ⟨[⟨1, "Aspirin", "Painkiller", "pain", 8, 5, 10⟩], [], []⟩

/-- Counterexample to C4 as stated: searching for `"Aspirin"` with
`search_type "both"` returns a row (the medicine `"Aspirin"`, scored 2)
although neither its `name` nor its `treats` field contains the lower-cased
query `"aspirin"` as a literal substring — the `LIKE` comparison is
case-insensitive on the column side as well, so the returned set is not the
set the claim describes. -/
theorem claim_C4_counterexample :
    ∃ r ∈ search_medicines_db cexDB "Aspirin" "both",
      containsSub (pyLower "Aspirin").data r.med.name.data = false ∧
        containsSub (pyLower "Aspirin").data r.med.treats.data = false := by
  decide

/-- C4 (amended): for `search_type "both"` and a query free of SQL wildcard
characters, `search_medicines_db` returns exactly (as a multiset) the
medicine rows whose lower-cased `name` or lower-cased `treats` contains the
lower-cased query as a substring, scored 2 when the name matches and 1 when
only `treats` matches, ordered by `relevance_score` descending with ties
broken by `rating` descending. -/
theorem claim_C4 (db : DB) (q : String) (hq : noWild (pyLower q).data = true) :
    (search_medicines_db db q "both").Perm
      ((db.medicines.filter (fun m =>
          containsSub (pyLower q).data (lowerStr m.name.data) ||
            containsSub (pyLower q).data (lowerStr m.treats.data))).map
        (fun m => (⟨m, if containsSub (pyLower q).data (lowerStr m.name.data)
            then 2 else 1⟩ : SearchRow))) ∧
    (search_medicines_db db q "both").Pairwise (fun a b =>
      b.relevance_score < a.relevance_score ∨
        (a.relevance_score = b.relevance_score ∧ b.med.rating ≤ a.med.rating)) := by
  have hcs : ∀ s : String, sqlLike s (likePattern (pyLower q)) =
      containsSub (pyLower q).data (lowerStr s.data) :=
    fun s => sqlLike_containsSub q s hq
  constructor
  · rw [search_medicines_db, if_neg (by decide), if_neg (by decide)]
    simp only [hcs]
    refine (sortByKey_perm searchKey _).trans (List.Perm.of_eq ?_)
    apply List.map_congr_left
    intro m hm
    have hcond := (List.mem_filter.mp hm).2
    by_cases hname : containsSub (pyLower q).data (lowerStr m.name.data) = true
    · simp [hname]
    · have htreats : containsSub (pyLower q).data (lowerStr m.treats.data) = true := by
        rcases Bool.or_eq_true .. |>.mp hcond with h | h
        · exact absurd h hname
        · exact h
      simp [hname, htreats]
  · rw [search_medicines_db, if_neg (by decide), if_neg (by decide)]
    refine (sortByKey_pairwise searchKey _).imp ?_
    intro a b hk
    simp only [keyLe, searchKey, Bool.or_eq_true, Bool.and_eq_true,
      decide_eq_true_eq] at hk
    rcases hk with h | ⟨h1, h2⟩
    · exact Or.inl (by exact_mod_cast h)
    · exact Or.inr ⟨by exact_mod_cast h1, h2⟩

/-- Witness for C4 (amended) at a concrete input. -/
theorem claim_C4_witness :
    (search_medicines_db wDB "aspirin" "both").Perm
      ((wDB.medicines.filter (fun m =>
          containsSub (pyLower "aspirin").data (lowerStr m.name.data) ||
            containsSub (pyLower "aspirin").data (lowerStr m.treats.data))).map
        (fun m => (⟨m, if containsSub (pyLower "aspirin").data (lowerStr m.name.data)
            then 2 else 1⟩ : SearchRow))) :=
  (claim_C4 wDB "aspirin" (by decide)).1

/-- In a table whose ids are pairwise distinct, filtering on the id of a
member row returns exactly that row. -/
theorem filter_id_singleton (l : List Medicine)
    (hnd : (l.map (fun m => m.id)).Nodup) (m : Medicine) (hm : m ∈ l) :
    l.filter (fun x => m.id == x.id) = [m] := by
  induction l with
  | nil => cases hm
  | cons a t ih =>
    simp only [List.map_cons, List.nodup_cons] at hnd
    obtain ⟨ha, ht⟩ := hnd
    rcases List.mem_cons.mp hm with rfl | hm'
    · rw [List.filter_cons_of_pos (by simp)]
      have : t.filter (fun x => m.id == x.id) = [] := by
        rw [List.filter_eq_nil_iff]
        intro x hx hbx
        exact ha (List.mem_map.mpr ⟨x, hx, ((beq_iff_eq ..).mp hbx).symm⟩)
      rw [this]
    · rw [List.filter_cons_of_neg ?_, ih ht hm']
      intro hbx
      exact ha (List.mem_map.mpr ⟨m, hm', (beq_iff_eq ..).mp hbx⟩)

/-- A `flatMap` producing a singleton or nothing is a filtered map. -/
theorem flatMap_if_singleton {α β : Type} (l : List α) (q : α → Bool) (f : α → β) :
    (l.flatMap (fun a => if q a then [f a] else [])) = (l.filter q).map f := by
  induction l with
  | nil => simp
  | cons a t ih =>
    by_cases h : q a = true
    · simp [h, ih]
    · simp [List.filter_cons, h, ih]

/-- Membership in the user-history join. -/
theorem mem_userJoin (db : DB) (uid : Nat) (p : PurchaseRecord) (m : Medicine) :
    (p, m) ∈ userJoin db uid ↔
      p ∈ db.purchase_history ∧ p.user_id = uid ∧ m ∈ db.medicines ∧
        p.medicine_id = m.id := by
  simp only [userJoin, List.mem_flatMap, List.mem_filter, List.mem_map,
    beq_iff_eq, Prod.mk.injEq]
  constructor
  · rintro ⟨p', ⟨hp, hu⟩, m', ⟨hm, hid⟩, rfl, rfl⟩
    exact ⟨hp, hu, hm, hid⟩
  · rintro ⟨hp, hu, hm, hid⟩
    exact ⟨p, ⟨hp, hu⟩, m, ⟨hm, hid⟩, rfl, rfl⟩

/-- Under distinct medicine ids, the rows of the join sharing the group key
of `pm` are exactly the user's purchases of that medicine, each paired with
the one medicine row. -/
theorem userJoin_grp_eq (db : DB) (uid : Nat)
    (hnd : (db.medicines.map (fun m => m.id)).Nodup)
    (pm : PurchaseRecord × Medicine) (hpm2 : pm.2 ∈ db.medicines) :
    (userJoin db uid).filter (fun qn => histKey qn == histKey pm) =
      (db.purchase_history.filter
        (fun p => p.user_id == uid && p.medicine_id == pm.2.id)).map
        (fun p => (p, pm.2)) := by
  unfold userJoin
  rw [List.filter_flatMap]
  have hstep : ∀ p ∈ db.purchase_history.filter (fun p => p.user_id == uid),
      (List.filter (fun qn => histKey qn == histKey pm)
        ((db.medicines.filter (fun m => p.medicine_id == m.id)).map
          (fun m => (p, m)))) =
      if p.medicine_id == pm.2.id then [(p, pm.2)] else [] := by
    intro p _
    rw [List.filter_map]
    simp only [Function.comp_def]
    by_cases hid : p.medicine_id = pm.2.id
    · rw [if_pos ((beq_iff_eq ..).mpr hid)]
      have h1 : db.medicines.filter (fun m => p.medicine_id == m.id) = [pm.2] := by
        rw [hid]
        exact filter_id_singleton db.medicines hnd pm.2 hpm2
      rw [h1, List.filter_cons_of_pos (by simp [histKey])]
      simp
    · rw [if_neg (fun hb => hid ((beq_iff_eq ..).mp hb))]
      have h2 : (db.medicines.filter (fun m => p.medicine_id == m.id)).filter
          (fun m => histKey (p, m) == histKey pm) = [] := by
        rw [List.filter_eq_nil_iff]
        intro m hm hb
        have h3 := (List.mem_filter.mp hm).2
        have h4 : m.id = pm.2.id := congrArg (fun k => k.1) ((beq_iff_eq ..).mp hb)
        exact hid (((beq_iff_eq ..).mp h3).trans h4)
      rw [h2]
      rfl
  rw [List.flatMap_congr hstep, flatMap_if_singleton, List.filter_filter]
  refine congrArg _ (List.filter_congr ?_)
  intro p _
  exact Bool.and_comm _ _

/-- The greatest element of a non-empty list of naturals, as folded by the
embedding of SQL `MAX`. -/
theorem foldr_max_mem (l : List Nat) (h : l ≠ []) : l.foldr max 0 ∈ l := by
  induction l with
  | nil => exact absurd rfl h
  | cons a t ih =>
    cases t with
    | nil => simp
    | cons b u =>
      rcases Nat.le_total (List.foldr max 0 (b :: u)) a with hle | hle
      · simp only [List.foldr_cons] at *
        rw [Nat.max_eq_left hle]
        exact List.mem_cons_self _ _
      · simp only [List.foldr_cons] at *
        rw [Nat.max_eq_right hle]
        exact List.mem_cons_of_mem _ (ih (by simp))

theorem le_foldr_max (l : List Nat) (x : Nat) (hx : x ∈ l) : x ≤ l.foldr max 0 := by
  induction l with
  | nil => cases hx
  | cons a t ih =>
    rcases List.mem_cons.mp hx with rfl | hx'
    · exact Nat.le_max_left _ _
    · exact (ih hx').trans (Nat.le_max_right _ _)

/-- C6: under the schema invariants (primary-key distinct medicine ids and
referentially intact purchases), `get_user_history` returns one row per
distinct medicine purchased by the user and none derived from other users'
purchases: row membership is exactly "the user purchased this medicine",
`total_quantity` sums that user's quantities for the medicine,
`latest_purchase_date` is the maximum of that user's purchase dates for it,
and rows are ordered by `latest_purchase_date` descending. -/
theorem claim_C6 (db : DB) (uid : Nat)
    (hnd : (db.medicines.map (fun m => m.id)).Nodup)
    (hfk : ∀ p ∈ db.purchase_history, ∃ m ∈ db.medicines, m.id = p.medicine_id) :
    ((get_user_history db uid).map (fun r => r.mid)).Nodup ∧
    (∀ mid : Nat, mid ∈ (get_user_history db uid).map (fun r => r.mid) ↔
      ∃ p ∈ db.purchase_history, p.user_id = uid ∧ p.medicine_id = mid) ∧
    (∀ r ∈ get_user_history db uid,
      r.total_quantity = ((db.purchase_history.filter
          (fun p => p.user_id == uid && p.medicine_id == r.mid)).map
          (fun p => p.quantity)).sum ∧
      (∃ p ∈ db.purchase_history, p.user_id = uid ∧ p.medicine_id = r.mid ∧
        p.purchase_date = r.latest_purchase_date) ∧
      (∀ p ∈ db.purchase_history, p.user_id = uid → p.medicine_id = r.mid →
        p.purchase_date ≤ r.latest_purchase_date)) ∧
    ((get_user_history db uid).map
      (fun r => r.latest_purchase_date)).Sorted (· ≥ ·) := by
  have hdef : get_user_history db uid =
      sortByKey (fun r => ((r.latest_purchase_date : ℚ), 0))
        ((dedupByKey histKey (userJoin db uid)).map (fun pm =>
          { mid := pm.2.id, name := pm.2.name, type := pm.2.type,
            rating := pm.2.rating, price := pm.2.price,
            total_quantity := (((userJoin db uid).filter
              (fun qn => histKey qn == histKey pm)).map
                (fun qn => qn.1.quantity)).sum,
            latest_purchase_date := (((userJoin db uid).filter
              (fun qn => histKey qn == histKey pm)).map
                (fun qn => qn.1.purchase_date)).foldr max 0 })) := rfl
  have hA : ∀ pm ∈ dedupByKey histKey (userJoin db uid),
      pm.1 ∈ db.purchase_history ∧ pm.1.user_id = uid ∧
        pm.2 ∈ db.medicines ∧ pm.1.medicine_id = pm.2.id := by
    intro pm hpm
    have hj := (dedupByKey_sublist histKey (userJoin db uid)).subset hpm
    obtain ⟨p, m⟩ := pm
    exact (mem_userJoin db uid p m).mp hj
  have hB : ∀ pm ∈ dedupByKey histKey (userJoin db uid),
      (userJoin db uid).filter (fun qn => histKey qn == histKey pm) =
        (db.purchase_history.filter
          (fun p => p.user_id == uid && p.medicine_id == pm.2.id)).map
          (fun p => (p, pm.2)) := by
    intro pm hpm
    exact userJoin_grp_eq db uid hnd pm (hA pm hpm).2.2.1
  have hperm : ((get_user_history db uid).map (fun r => r.mid)).Perm
      ((dedupByKey histKey (userJoin db uid)).map (fun pm => pm.2.id)) := by
    rw [hdef]
    refine ((sortByKey_perm _ _).map _).trans ?_
    rw [List.map_map]
    exact List.Perm.refl _
  have hnodup : ((dedupByKey histKey (userJoin db uid)).map
      (fun pm => pm.2.id)).Nodup := by
    have hkn : ((dedupByKey histKey (userJoin db uid)).map histKey).Nodup :=
      dedupByKey_keys_nodup histKey (userJoin db uid)
    have hinj := List.inj_on_of_nodup_map hkn
    have hels : (dedupByKey histKey (userJoin db uid)).Nodup :=
      List.Nodup.of_map histKey hkn
    refine List.Nodup.map_on ?_ hels
    intro x hx y hy hxy
    have hx2 := (hA x hx).2.2.1
    have hy2 := (hA y hy).2.2.1
    have hmeq : x.2 = y.2 := List.inj_on_of_nodup_map hnd hx2 hy2 hxy
    have hkeq : histKey x = histKey y := by
      simp [histKey, hmeq]
    exact hinj hx hy hkeq
  refine ⟨hperm.nodup_iff.mpr hnodup, ?_, ?_, ?_⟩
  · intro mid
    rw [hperm.mem_iff]
    constructor
    · intro hm
      obtain ⟨pm, hpm, rfl⟩ := List.mem_map.mp hm
      obtain ⟨hp, hu, _, hmid⟩ := hA pm hpm
      exact ⟨pm.1, hp, hu, hmid⟩
    · rintro ⟨p, hp, hu, hm⟩
      obtain ⟨m, hmm, hid⟩ := hfk p hp
      have hjm : (p, m) ∈ userJoin db uid :=
        (mem_userJoin db uid p m).mpr ⟨hp, hu, hmm, hid.symm⟩
      have hcov := dedupByKey_covers histKey (userJoin db uid) (p, m) hjm
      obtain ⟨pm, hpm, hkeq⟩ := List.mem_map.mp hcov
      refine List.mem_map.mpr ⟨pm, hpm, ?_⟩
      have h1 : pm.2.id = m.id := congrArg (fun k => k.1) hkeq
      exact h1.trans (hid.trans hm)
  · intro r hr
    rw [hdef, mem_sortByKey] at hr
    obtain ⟨pm, hpm, rfl⟩ := List.mem_map.mp hr
    obtain ⟨hp1, hu1, hm2, hid1⟩ := hA pm hpm
    refine ⟨?_, ?_, ?_⟩
    · dsimp only
      rw [hB pm hpm, List.map_map]
      rfl
    · dsimp only
      have hX : pm.1 ∈ db.purchase_history.filter
          (fun p => p.user_id == uid && p.medicine_id == pm.2.id) :=
        List.mem_filter.mpr ⟨hp1, by simp [hu1, hid1]⟩
      have hY : pm.1.purchase_date ∈ (db.purchase_history.filter
          (fun p => p.user_id == uid && p.medicine_id == pm.2.id)).map
          (fun p => p.purchase_date) :=
        List.mem_map.mpr ⟨pm.1, hX, rfl⟩
      have hmax := foldr_max_mem _ (List.ne_nil_of_mem hY)
      obtain ⟨p, hpX, hdate⟩ := List.mem_map.mp hmax
      have hpf := List.mem_filter.mp hpX
      have hcond := hpf.2
      rw [Bool.and_eq_true, beq_iff_eq, beq_iff_eq] at hcond
      refine ⟨p, hpf.1, hcond.1, hcond.2, ?_⟩
      rw [hB pm hpm, List.map_map]
      exact hdate
    · dsimp only
      intro p hp hu hm
      have hpX : p ∈ db.purchase_history.filter
          (fun p => p.user_id == uid && p.medicine_id == pm.2.id) :=
        List.mem_filter.mpr ⟨hp, by simp [hu, hm]⟩
      have hY : p.purchase_date ∈ (db.purchase_history.filter
          (fun p => p.user_id == uid && p.medicine_id == pm.2.id)).map
          (fun p => p.purchase_date) :=
        List.mem_map.mpr ⟨p, hpX, rfl⟩
      rw [hB pm hpm, List.map_map]
      exact le_foldr_max _ _ hY
  · rw [hdef]
    have hp := sortByKey_pairwise_fst
      (fun r : HistRow => ((r.latest_purchase_date : ℚ), 0))
      ((dedupByKey histKey (userJoin db uid)).map (fun pm =>
        { mid := pm.2.id, name := pm.2.name, type := pm.2.type,
          rating := pm.2.rating, price := pm.2.price,
          total_quantity := (((userJoin db uid).filter
            (fun qn => histKey qn == histKey pm)).map
              (fun qn => qn.1.quantity)).sum,
          latest_purchase_date := (((userJoin db uid).filter
            (fun qn => histKey qn == histKey pm)).map
              (fun qn => qn.1.purchase_date)).foldr max 0 }))
    refine List.pairwise_map.mpr (hp.imp ?_)
    intro a b h
    have h2 : ((b.latest_purchase_date : ℚ)) ≤ ((a.latest_purchase_date : ℚ)) := h
    exact_mod_cast h2

/-- Witness for C6 at a concrete input. -/
theorem claim_C6_witness :
    ((get_user_history wDB 10).map (fun r => r.mid)).Nodup :=
  (claim_C6 wDB 10 (by decide) (by decide)).1
